import Mathlib

/-! Shallow embedding of the TorrentChain repository: the proof-of-useful-work
blockchain (`src/blockchain/`: `proof_useful_work.py`, `block.py`, `chain.py`)
and the peer-to-peer layer (`src/p2p/`: `chunk_manager.py`, `node.py`).

Python strings are modelled as `List Char`, byte strings as `List Nat`.
The iterated SHA-256 primitive (`PoUW.sequential_hashing`, built on Python's
`hashlib`) is external to the translated control flow; the development is
parameterised over the resulting hash function `H` (one application of `H`
stands for one call of `sequential_hashing` at the fixed iteration count).
Likewise the chunk layer is parameterised over the content-hash function `Hb`
on byte strings, and the node layer over the JSON codec and the signature
primitives, which live in external libraries. -/

namespace TorrentChain

/-- Python strings, modelled as their character sequences. -/
abbrev Str := List Char

/-- The string of `n` zero characters, Python's `"0" * n`. -/
def zeros (n : Nat) : Str := List.replicate n ('0')

namespace PoUW

/-- Source `PoUW.process_transactions`: concatenates the string form of each
transaction, in order (`"".join(str(tx) for tx in transactions)`);
transactions are modelled as strings. -/
def process_transactions (txs : List Str) : Str := txs.flatten

end PoUW

/-- A `Block` (`block.py`): all fields of the Python object.  Timestamps are
rationals (Python floats under exact arithmetic); the hash is whatever string
the hash function produced at sealing time. -/
structure Block where
  index : Nat
  timestamp : ℚ
  transactions : List Str
  previous_hash : Str
  nonce : Nat
  useful_work_data : Str
  difficulty : Nat
  hash : Str
deriving Repr, DecidableEq, Inhabited

/-- The apostrophe character, used by Python's `repr` of a string. -/
def quoteChar : Char := Char.ofNat 39

/-- Python's `repr` of a string (as used by `str(list)`): the string in
quotes. -/
def pyStr (s : Str) : Str := quoteChar :: s ++ [quoteChar]

/-- Python's `str` of a list of strings: `['a', 'b']`. -/
def pyStrList (l : List Str) : Str :=
  ("[").data ++ List.intercalate ((", ").data) (l.map pyStr) ++ ("]").data

/-- Python's `str` of an unsigned integer. -/
def natStr (n : Nat) : Str := (Nat.repr n).data

/-- Python's `str` of a timestamp (a float, modelled as a rational). -/
def ratStr (q : ℚ) : Str := (Int.repr q.num).data ++ ("/").data ++ (Nat.repr q.den).data

/-- The concatenation hashed by `Block.calculate_hash`:
`str(index) + str(timestamp) + str(transactions) + str(previous_hash) +
str(nonce) + str(useful_work_data) + str(difficulty)`. -/
def blockData (b : Block) : Str :=
  natStr b.index ++ ratStr b.timestamp ++ pyStrList b.transactions ++
    b.previous_hash ++ natStr b.nonce ++ b.useful_work_data ++ natStr b.difficulty

/-- Source `Block.calculate_hash`: sequential hashing (`H`) of the concatenated
fields. -/
def calculate_hash (H : Str → Str) (b : Block) : Str := H (blockData b)

/-- One iteration of the sealing loop body landing at nonce `n`: set the
nonce and recompute the hash (`block.nonce = n; block.hash =
block.calculate_hash()`). -/
def withNonce (H : Str → Str) (b : Block) (n : Nat) : Block :=
  let b' := { b with nonce := n }
  { b' with hash := calculate_hash H b' }

/-- The `Block` constructor: stores the fields and computes the hash once. -/
def mkBlock (H : Str → Str) (index : Nat) (ts : ℚ) (txs : List Str)
    (prev : Str) (diff : Nat) (nonce : Nat) (uwd : Str) : Block :=
  let b0 : Block :=
    { index := index, timestamp := ts, transactions := txs, previous_hash := prev,
      nonce := nonce, useful_work_data := uwd, difficulty := diff, hash := [] }
  { b0 with hash := calculate_hash H b0 }

/-- The sealing loop's exit test at nonce `n`: the recomputed hash starts
with `difficulty` zero characters (`hash.startswith("0" * difficulty)`). -/
def sealTest (H : Str → Str) (b : Block) (n : Nat) : Bool :=
  List.isPrefixOf (zeros b.difficulty) ((withNonce H b n).hash)

/-- The mining loop (`while not block.hash.startswith("0" * block.difficulty)`):
the block at the least satisfying nonce.  The loop terminates exactly when
some nonce satisfies the test, which is the hypothesis `h`. -/
def sealBlock (H : Str → Str) (b : Block) (h : ∃ n, sealTest H b n = true) : Block :=
  withNonce H b (Nat.find h)

/-- The `Blockchain` state (`chain.py`): difficulty, target block time,
adjustment interval, the chain and the pending-transaction queue. -/
structure Blockchain where
  difficulty : Nat
  target_time : ℚ
  adjustment_interval : Nat
  chain : List Block
  pending_transactions : List Str
deriving Repr, DecidableEq

/-- The unsealed genesis block built by `create_genesis_block`: index 0,
transactions `["GenesisBlock"]`, previous hash of 64 zero characters, the
chain's initial difficulty 4, nonce 0, useful-work data from
`process_transactions`. -/
def genesisStart (H : Str → Str) (ts : ℚ) : Block :=
  mkBlock H 0 ts ([("GenesisBlock").data]) (zeros 64) 4 0
    (PoUW.process_transactions ([("GenesisBlock").data]))

/-- Source `Blockchain.create_genesis_block`: the genesis block mined to the initial
difficulty. -/
def create_genesis_block (H : Str → Str) (ts : ℚ)
    (h : ∃ n, sealTest H (genesisStart H ts) n = true) : Block :=
  sealBlock H (genesisStart H ts) h

/-- Source `Blockchain.__init__`: difficulty 4, the given target time and adjustment
interval (Python defaults 60 and 10), a chain holding the mined genesis
block, an empty pending queue.  `ts` is the clock reading at genesis
construction. -/
def Blockchain.init (H : Str → Str) (target_time : ℚ) (adjustment_interval : Nat)
    (ts : ℚ) (h : ∃ n, sealTest H (genesisStart H ts) n = true) : Blockchain :=
  { difficulty := 4, target_time := target_time,
    adjustment_interval := adjustment_interval,
    chain := [create_genesis_block H ts h], pending_transactions := [] }

/-- Source `Blockchain.is_valid_block`: the four checks, in source order, against
the last block of the chain (`self.chain[-1]`). -/
def is_valid_block (H : Str → Str) (bc : Blockchain) (b : Block) : Bool :=
  if b.previous_hash ≠ (bc.chain.getLastD default).hash then false
  else if b.hash ≠ calculate_hash H b then false
  else if ¬ (List.isPrefixOf (zeros b.difficulty) b.hash) then false
  else if b.useful_work_data ≠ PoUW.process_transactions b.transactions then false
  else true

/-- Source `Blockchain.adjust_difficulty`: no-op unless the chain is longer than the
adjustment interval; otherwise compares the time span since the block
`adjustment_interval + 1` positions from the end with the target span and
moves the difficulty by one step, floored at 1. -/
def adjust_difficulty (bc : Blockchain) : Blockchain :=
  if bc.chain.length ≤ bc.adjustment_interval then bc
  else if (bc.chain.getLastD default).timestamp -
      (bc.chain.getD (bc.chain.length - bc.adjustment_interval - 1) default).timestamp <
      bc.target_time * (bc.adjustment_interval : ℚ) / 2 then
    { bc with difficulty := bc.difficulty + 1 }
  else if (bc.chain.getLastD default).timestamp -
      (bc.chain.getD (bc.chain.length - bc.adjustment_interval - 1) default).timestamp >
      bc.target_time * (bc.adjustment_interval : ℚ) * 2 then
    { bc with difficulty := max 1 (bc.difficulty - 1) }
  else bc

/-- Source `Blockchain.add_block`: append the block when valid (then adjust the
difficulty when the block's index is a positive multiple of the adjustment
interval) and report `true`; otherwise leave the state alone and report
`false`. -/
def add_block (H : Str → Str) (bc : Blockchain) (b : Block) : Bool × Blockchain :=
  if is_valid_block H bc b then
    let bc1 := { bc with chain := bc.chain ++ [b] }
    if b.index ≠ 0 ∧ b.index % bc.adjustment_interval = 0 then
      (true, adjust_difficulty bc1)
    else (true, bc1)
  else (false, bc)

/-- The candidate block built by `Blockchain.mine_block` before sealing:
index `len(chain)`, the pending transactions, the last block's hash, the
chain's current difficulty, nonce 0, useful-work data derived from the
pending transactions.  `ts` is the clock reading at construction. -/
def candidate (H : Str → Str) (bc : Blockchain) (ts : ℚ) : Block :=
  mkBlock H bc.chain.length ts bc.pending_transactions
    (bc.chain.getLastD default).hash bc.difficulty 0
    (PoUW.process_transactions bc.pending_transactions)

/-- Source `Blockchain.mine_block`: no-op returning no block on an empty pending
queue; otherwise seal the candidate, attempt `add_block`, and on success
clear the pending queue and return the sealed block, on failure return no
block with the state unchanged.  `hseal` is the termination condition of the
sealing loop (supplied upfront; it is consumed only on the non-empty
branch, where Python would actually run the loop). -/
def mine_block (H : Str → Str) (bc : Blockchain) (ts : ℚ)
    (hseal : ∃ n, sealTest H (candidate H bc ts) n = true) :
    Option Block × Blockchain :=
  if bc.pending_transactions = [] then (none, bc)
  else if (add_block H bc (sealBlock H (candidate H bc ts) hseal)).1 then
    (some (sealBlock H (candidate H bc ts) hseal),
     { (add_block H bc (sealBlock H (candidate H bc ts) hseal)).2 with
         pending_transactions := [] })
  else (none, bc)

/-- The states reachable from `Blockchain.__init__` by `add_block` and
`mine_block` calls (with arbitrary clock readings and arbitrary block
arguments). -/
inductive Reachable (H : Str → Str) : Blockchain → Prop
  | init (target_time : ℚ) (adjustment_interval : Nat) (ts : ℚ)
      (h : ∃ n, sealTest H (genesisStart H ts) n = true) :
      Reachable H (Blockchain.init H target_time adjustment_interval ts h)
  | add (bc : Blockchain) (b : Block) : Reachable H bc →
      Reachable H (add_block H bc b).2
  | mine (bc : Blockchain) (ts : ℚ)
      (hseal : ∃ n, sealTest H (candidate H bc ts) n = true) :
      Reachable H bc → Reachable H (mine_block H bc ts hseal).2

/-- The states reachable from `Blockchain.__init__` by `mine_block` calls
alone. -/
inductive ReachableByMining (H : Str → Str) : Blockchain → Prop
  | init (target_time : ℚ) (adjustment_interval : Nat) (ts : ℚ)
      (h : ∃ n, sealTest H (genesisStart H ts) n = true) :
      ReachableByMining H (Blockchain.init H target_time adjustment_interval ts h)
  | mine (bc : Blockchain) (ts : ℚ)
      (hseal : ∃ n, sealTest H (candidate H bc ts) n = true) :
      ReachableByMining H bc → ReachableByMining H (mine_block H bc ts hseal).2

/-! ### The chunk store (`src/p2p/chunk_manager.py`)

The filesystem (one `<hash>.chunk` file per chunk) is modelled as an
association list from content hash to byte string, and the in-memory
`chunk_index` as an association list from content hash to its metadata
record.  `datetime` readings are rationals supplied by the caller.

The manager guards every method with one non-reentrant `asyncio.Lock`.
`retrieve_chunk`, `validate_chunk` and the mismatch branch of `store_chunk`
acquire it at most once (or return before taking it), so when invoked with
the lock free they behave as pure functions of the store and the lock is
free again afterwards.  The matching-hash branch of `store_chunk`, however,
awaits `save_metadata` while still holding the lock, and `save_metadata`
re-acquires the same lock: the coroutine blocks there forever.  A call is
therefore modelled by `StoreResult`: either it `returns` a flag and the
resulting state, or it hits the `deadlock` carrying the writes applied
before blocking — after which the lock is held forever, so no later call on
the manager completes either. -/

/-- The per-chunk metadata record kept in `chunk_index`. -/
structure ChunkRecord where
  size : Nat
  peers : List Str
  created_at : ℚ
  expires_at : ℚ
deriving Repr, DecidableEq

/-- The `ChunkManager` state: the TTL, the metadata index, and the backing
files on disk. -/
structure ChunkState where
  chunk_ttl : ℚ
  chunk_index : List (Str × ChunkRecord)
  files : List (Str × List Nat)
deriving Repr, DecidableEq

/-- Overwrite-or-add for an association list (Python dict assignment). -/
def upsert {α : Type} : List (Str × α) → Str → α → List (Str × α)
  | [], k, v => [(k, v)]
  | (k', v') :: t, k, v =>
    if k' = k then (k, v) :: t else (k', v') :: upsert t k v

/-- Source `ChunkManager.validate_chunk_data`: the recomputed content hash equals
the claimed one. -/
def validate_chunk_data (Hb : List Nat → Str) (chunk_hash : Str)
    (data : List Nat) : Bool :=
  decide (Hb data = chunk_hash)

/-- Outcome of a call into the chunk manager: the call returns, or it
blocks forever on the manager's non-reentrant lock with the writes it made
up to that point applied. -/
inductive StoreResult where
  | returns (ok : Bool) (st : ChunkState)
  | deadlock (st : ChunkState)
deriving Repr, DecidableEq

/-- The store state a call left behind, whether it returned or blocked. -/
def StoreResult.state : StoreResult → ChunkState
  | .returns _ st => st
  | .deadlock st => st

/-- Source `ChunkManager.store_chunk`: on a hash mismatch, return `False`
before taking the lock, state untouched.  On a matching hash: acquire
`self.lock`, write the backing file, (re)write the index record with size,
peers, creation time `now` and expiry `now + chunk_ttl`, then await
`save_metadata` — which re-acquires the same non-reentrant `asyncio.Lock`
while it is still held, so the call never returns; the file and index
writes are already applied at that point. -/
def store_chunk (Hb : List Nat → Str) (st : ChunkState) (now : ℚ)
    (chunk_hash : Str) (data : List Nat) (peers : List Str) : StoreResult :=
  if ¬ validate_chunk_data Hb chunk_hash data then StoreResult.returns false st
  else
    StoreResult.deadlock
      { st with
        files := upsert st.files chunk_hash data,
        chunk_index := upsert st.chunk_index chunk_hash
          { size := data.length, peers := peers,
            created_at := now, expires_at := now + st.chunk_ttl } }

/-- Source `ChunkManager.retrieve_chunk`: absence when the hash is not in the index;
otherwise read the backing file (a missing file raises `FileNotFoundError`,
caught and turned into absence) and return the bytes only when they hash to
the content hash. -/
def retrieve_chunk (Hb : List Nat → Str) (st : ChunkState)
    (chunk_hash : Str) : Option (List Nat) :=
  if (st.chunk_index.lookup chunk_hash).isNone then none
  else
    match st.files.lookup chunk_hash with
    | none => none
    | some data => if validate_chunk_data Hb chunk_hash data then some data else none

/-- Source `ChunkManager.validate_chunk`: the hash is indexed, the backing file
exists, and the record has not expired at time `now`. -/
def validate_chunk (st : ChunkState) (now : ℚ) (chunk_hash : Str) : Bool :=
  match st.chunk_index.lookup chunk_hash with
  | none => false
  | some r =>
    if (st.files.lookup chunk_hash).isNone then false
    else decide (now < r.expires_at)

/-! ### The peer protocol (`src/p2p/node.py`)

A message is a field map (JSON object of string values, list-valued fields
kept as their serialized form).  The JSON codec is modelled by a `serialize`
/ `parse` pair and the Ed25519 primitives by `sign` / `verify` parameters;
an exception escaping `decode_message` is modelled as `none`. -/

/-- A decoded message: a JSON object as a field map. -/
abbrev Msg := List (Str × Str)

/-- Source `Node.decode_message`: split the 64-byte trailing signature, parse the
JSON (`none` models `json.JSONDecodeError`), look up the embedded `pub_key`
(absence models `KeyError`), verify the signature over the data bytes
(failure models `InvalidSignature`); each failure is logged and re-raised,
modelled as `none`. -/
def decode_message (parse : List Nat → Option Msg)
    (verify : Str → List Nat → List Nat → Bool) (raw_msg : List Nat) : Option Msg :=
  match parse (raw_msg.take (raw_msg.length - 64)) with
  | none => none
  | some message =>
    match message.lookup (("pub_key").data) with
    | none => none
    | some pk =>
      if verify pk (raw_msg.drop (raw_msg.length - 64))
          (raw_msg.take (raw_msg.length - 64)) then some message
      else none

/-- The read loop of `Node.handle_connection` over a stream of frames,
returning the messages handed to `process_message`.  A frame whose decoding
raises ends the loop (the exception is not caught by the loop's
`try`/`except`, so the `finally` block removes the peer and closes the
connection); frame exhaustion models `IncompleteReadError`. -/
def handle_connection (parse : List Nat → Option Msg)
    (verify : Str → List Nat → List Nat → Bool) : List (List Nat) → List Msg
  | [] => []
  | f :: rest =>
    match decode_message parse verify f with
    | none => []
    | some m => m :: handle_connection parse verify rest

/-- Source `Node.encode_message`: set the `timestamp` field, serialize, and append
the 64-byte signature over the serialized bytes. -/
def encode_message (serialize : Msg → List Nat) (sign : List Nat → List Nat)
    (ts : Str) (message : Msg) : List Nat :=
  serialize (upsert message (("timestamp").data) ts) ++
    sign (serialize (upsert message (("timestamp").data) ts))

/-- The heartbeat message sent by `Node.heartbeat`. -/
def heartbeat_msg : Msg := [(("type").data, ("heartbeat").data)]

/-- The handshake message sent by `Node.connect_to_peer` (the only produced
message carrying `pub_key`). -/
def handshake_msg (pub_key node_id : Str) : Msg :=
  [(("type").data, ("handshake").data), (("pub_key").data, pub_key),
    (("node_id").data, node_id)]

/-- The chunk-request message sent by `Node.request_chunk_from_peers`. -/
def chunk_request_msg (chunk_hash requestor : Str) : Msg :=
  [(("type").data, ("chunk_request").data), (("chunk_hash").data, chunk_hash),
    (("requestor").data, requestor)]

/-- The chunk-response message sent by `Node.handle_chunk_request`. -/
def chunk_response_msg (chunk_hash data : Str) : Msg :=
  [(("type").data, ("chunk_response").data), (("chunk_hash").data, chunk_hash),
    (("data").data, data)]

/-- The chunk-announcement message sent by `Node.announce_chunks`. -/
def chunk_announce_msg (chunks node_id : Str) : Msg :=
  [(("type").data, ("chunk_announce").data), (("chunks").data, chunks),
    (("node_id").data, node_id)]

/-- The peer-exchange message sent by `Node.send_peer_list`. -/
def peer_exchange_msg (peers : Str) : Msg :=
  [(("type").data, ("peer_exchange").data), (("peers").data, peers)]

/-! ### Concrete instances used to evaluate the model

`H0` is a degenerate sequential-hash oracle mapping every input to a string
of four zeros and a tail character; with it the sealing loop exits at
nonce 0 and every hash comparison is decidable by evaluation. -/

/-- A concrete hash oracle whose outputs always meet difficulty 4. -/
def H0 : Str → Str := fun _ => ("0000h").data

/-- With `H0` the genesis sealing loop terminates (at nonce 0). -/
def hgen0 : ∃ n, sealTest H0 (genesisStart H0 0) n = true := ⟨0, by decide⟩

/-- A freshly constructed chain under `H0` (defaults: target 60,
interval 10). -/
def bc0 : Blockchain := Blockchain.init H0 60 10 0 hgen0

/-- A block passing all four `is_valid_block` checks on `bc0` under `H0`. -/
def goodBlock : Block :=
  { index := 1, timestamp := 1, transactions := [("t").data],
    previous_hash := ("0000h").data, nonce := 0,
    useful_work_data := ("t").data, difficulty := 4, hash := ("0000h").data }

/-- A block passing all four `is_valid_block` checks on `bc0` under `H0`
(difficulty 0, so the prefix check is vacuous) but carrying index 7. -/
def rogueBlock : Block :=
  { index := 7, timestamp := 1, transactions := [("t").data],
    previous_hash := ("0000h").data, nonce := 0,
    useful_work_data := ("t").data, difficulty := 0, hash := ("0000h").data }

/-- The chain obtained from `bc0` by appending `rogueBlock`. -/
def bcRogue : Blockchain := (add_block H0 bc0 rogueBlock).2

/-- A timestamp-only block (all content fields empty) used to exercise the
difficulty controller. -/
def flatBlock : Block :=
  { index := 0, timestamp := 0, transactions := [], previous_hash := [],
    nonce := 0, useful_work_data := [], difficulty := 1, hash := [] }

/-- Three blocks sealed instantaneously against a 1-second target with
adjustment interval 2: the controller must raise the difficulty. -/
def bcFast : Blockchain :=
  { difficulty := 1, target_time := 1, adjustment_interval := 2,
    chain := [flatBlock, flatBlock, flatBlock], pending_transactions := [] }

/-- A concrete content-hash oracle for the chunk layer. -/
def HbW : List Nat → Str := fun _ => ("h").data

/-- The content hash `HbW` assigns to every byte string. -/
def hashW : Str := ("h").data

/-- The empty chunk store with a 10-second TTL. -/
def stEmpty : ChunkState := { chunk_ttl := 10, chunk_index := [], files := [] }

/-- A chunk record that expired at time 1. -/
def recB : ChunkRecord := { size := 2, peers := [], created_at := 0, expires_at := 1 }

/-- A store holding one chunk whose record expired at time 1 while its
backing bytes are still on disk. -/
def stB : ChunkState :=
  { chunk_ttl := 10, chunk_index := [(hashW, recB)], files := [(hashW, [1, 2])] }

/-- A chain ready to mine under `H0`: the fresh chain with one pending
transaction. -/
def bc5 : Blockchain :=
  { difficulty := 4, target_time := 60, adjustment_interval := 10,
    chain := bc0.chain, pending_transactions := [("tx1").data] }

/-- The sealing loop for `bc5`'s candidate terminates (at nonce 0). -/
def hseal5 : ∃ n, sealTest H0 (candidate H0 bc5 1) n = true := ⟨0, by decide⟩

/-- A concrete parser recognising only the byte string `[1]`. -/
def parse4 : List Nat → Option Msg := fun b =>
  if b = [1] then some ([(("pub_key").data, ("k").data)]) else none

/-- A signature verifier that always accepts. -/
def verify4 : Str → List Nat → List Nat → Bool := fun _ _ _ => true

/-- A frame whose decoding raises (its data part is unparseable). -/
def badFrame : List Nat := [0]

/-- A frame that decodes: data part `[1]` followed by a 64-byte signature. -/
def goodFrame : List Nat := 1 :: List.replicate 64 0

/-- The timestamp string used by the encoding witnesses. -/
def tsW : Str := ("0").data

/-- The heartbeat message with its send-time timestamp field. -/
def hbMsgTs : Msg := upsert heartbeat_msg (("timestamp").data) tsW

/-- A parser that inverts `serW` on the heartbeat message. -/
def parseW : List Nat → Option Msg := fun _ => some hbMsgTs

/-- A degenerate serializer. -/
def serW : Msg → List Nat := fun _ => []

/-- A signer producing 64 zero bytes. -/
def signW : List Nat → List Nat := fun _ => List.replicate 64 0

/-! ### Helper lemmas -/

/-- Helper: `withNonce` touches only the nonce and the hash. -/
theorem withNonce_index (H : Str → Str) (b : Block) (n : Nat) :
    (withNonce H b n).index = b.index := rfl

/-- The difficulty controller never touches the chain. -/
theorem adjust_difficulty_chain (bc : Blockchain) :
    (adjust_difficulty bc).chain = bc.chain := by
  unfold adjust_difficulty
  split_ifs <;> rfl

/-- The difficulty controller never touches the pending queue. -/
theorem adjust_difficulty_pending (bc : Blockchain) :
    (adjust_difficulty bc).pending_transactions = bc.pending_transactions := by
  unfold adjust_difficulty
  split_ifs <;> rfl

/-- Helper: `is_valid_block` succeeds exactly on the four conditions of
`chain.py`. -/
theorem is_valid_block_eq_true (H : Str → Str) (bc : Blockchain) (b : Block) :
    is_valid_block H bc b = true ↔
      (b.previous_hash = (bc.chain.getLastD default).hash ∧
       b.hash = calculate_hash H b ∧
       List.isPrefixOf (zeros b.difficulty) b.hash = true ∧
       b.useful_work_data = PoUW.process_transactions b.transactions) := by
  simp only [is_valid_block]
  split_ifs <;> simp_all

/-! ### The claims -/

/-- C1: `add_block` returns `True` and appends the block exactly when the
four validity conditions hold (previous-hash link, hash recomputation,
difficulty prefix, useful-work derivation); on any failure it returns
`False` and leaves the state unchanged. -/
theorem add_block_iff_valid (H : Str → Str) (bc : Blockchain) (b : Block)
    (_hne : bc.chain ≠ []) :
    ((add_block H bc b).1 = true ↔
      (b.previous_hash = (bc.chain.getLastD default).hash ∧
       b.hash = calculate_hash H b ∧
       List.isPrefixOf (zeros b.difficulty) b.hash = true ∧
       b.useful_work_data = PoUW.process_transactions b.transactions)) ∧
    ((add_block H bc b).1 = true → (add_block H bc b).2.chain = bc.chain ++ [b]) ∧
    ((add_block H bc b).1 = false → (add_block H bc b).2 = bc) := by
  have hiff := is_valid_block_eq_true H bc b
  by_cases h : is_valid_block H bc b
  · refine ⟨?_, ?_, ?_⟩
    · simp only [add_block, if_pos h]
      split_ifs <;> exact iff_of_true rfl (hiff.mp h)
    · intro _
      simp only [add_block, if_pos h]
      split_ifs
      · exact adjust_difficulty_chain _
      · rfl
    · intro hf
      exfalso
      simp only [add_block, if_pos h] at hf
      split_ifs at hf
  · refine ⟨?_, ?_, ?_⟩
    · simp only [add_block, if_neg h]
      exact ⟨fun hh => absurd hh (by simp), fun hc => absurd (hiff.mpr hc) h⟩
    · intro ht
      exfalso
      simp only [add_block, if_neg h] at ht
      simp at ht
    · intro _
      simp only [add_block, if_neg h]

/-- Witness for C1: on the concrete chain `bc0` under `H0`, `goodBlock`
satisfies the four conditions and is accepted. -/
theorem add_block_iff_valid_witness :
    bc0.chain ≠ [] ∧ (add_block H0 bc0 goodBlock).1 = true :=
  ⟨by decide, (add_block_iff_valid H0 bc0 goodBlock (by decide)).1.mpr (by decide)⟩

/-- C2: `adjust_difficulty` is a no-op when the chain length does not exceed
the adjustment interval; otherwise, with `A` the time span since the block
`interval + 1` positions from the end and `E` the expected span, it raises
the difficulty by exactly 1 when `A < E / 2`, lowers it by exactly 1 floored
at 1 when `A > E * 2`, and otherwise leaves the state unchanged; only the
difficulty field is ever modified. -/
theorem adjust_difficulty_spec (bc : Blockchain) (A E : ℚ)
    (hA : A = (bc.chain.getLastD default).timestamp -
      (bc.chain.getD (bc.chain.length - bc.adjustment_interval - 1) default).timestamp)
    (hE : E = bc.target_time * (bc.adjustment_interval : ℚ)) :
    (bc.chain.length ≤ bc.adjustment_interval → adjust_difficulty bc = bc) ∧
    (bc.adjustment_interval < bc.chain.length →
      ((A < E / 2 → adjust_difficulty bc = { bc with difficulty := bc.difficulty + 1 }) ∧
       (¬ A < E / 2 → A > E * 2 →
         adjust_difficulty bc = { bc with difficulty := max 1 (bc.difficulty - 1) }) ∧
       (¬ A < E / 2 → ¬ A > E * 2 → adjust_difficulty bc = bc))) := by
  subst hA hE
  constructor
  · intro hle
    unfold adjust_difficulty
    rw [if_pos hle]
  · intro hlt
    have h1 : ¬ bc.chain.length ≤ bc.adjustment_interval := by omega
    refine ⟨fun c1 => ?_, fun c1 c2 => ?_, fun c1 c2 => ?_⟩
    · unfold adjust_difficulty
      rw [if_neg h1, if_pos c1]
    · unfold adjust_difficulty
      rw [if_neg h1, if_neg c1, if_pos c2]
    · unfold adjust_difficulty
      rw [if_neg h1, if_neg c1, if_neg c2]

/-- Witness for C2: on `bcFast` (three simultaneous blocks, 1-second target,
interval 2) the controller raises the difficulty by exactly 1. -/
theorem adjust_difficulty_spec_witness :
    adjust_difficulty bcFast = { bcFast with difficulty := bcFast.difficulty + 1 } :=
  ((adjust_difficulty_spec bcFast 0 2 (by norm_num [bcFast, flatBlock])
      (by norm_num [bcFast])).2 (by decide)).1 (by norm_num)

/-- An accepted block is appended at the end of the chain (shared helper). -/
theorem add_block_accept_chain (H : Str → Str) (bc : Blockchain) (b : Block)
    (h : (add_block H bc b).1 = true) :
    (add_block H bc b).2.chain = bc.chain ++ [b] := by
  by_cases hv : is_valid_block H bc b
  · simp only [add_block, if_pos hv]
    split_ifs
    · exact adjust_difficulty_chain _
    · rfl
  · exfalso
    simp only [add_block, if_neg hv] at h
    simp at h

/-- C5: `mine_block` on an empty pending queue returns no block and keeps the
state; otherwise it builds the candidate at index `len(chain)` linked to the
last block's hash at the current difficulty with the derived useful-work
data, seals it by nonce search (the sealed hash meets the difficulty
prefix), and attempts `add_block`: on acceptance the pending queue is
cleared and the sealed block returned, on rejection no block is returned and
the state is unchanged. -/
theorem mine_block_spec (H : Str → Str) (bc : Blockchain) (ts : ℚ)
    (hseal : ∃ n, sealTest H (candidate H bc ts) n = true) :
    (bc.pending_transactions = [] → mine_block H bc ts hseal = (none, bc)) ∧
    (bc.pending_transactions ≠ [] →
      (candidate H bc ts).index = bc.chain.length ∧
      (candidate H bc ts).previous_hash = (bc.chain.getLastD default).hash ∧
      (candidate H bc ts).difficulty = bc.difficulty ∧
      (candidate H bc ts).useful_work_data =
        PoUW.process_transactions bc.pending_transactions ∧
      List.isPrefixOf (zeros (candidate H bc ts).difficulty)
        (sealBlock H (candidate H bc ts) hseal).hash = true ∧
      ((add_block H bc (sealBlock H (candidate H bc ts) hseal)).1 = true →
        mine_block H bc ts hseal =
          (some (sealBlock H (candidate H bc ts) hseal),
           { (add_block H bc (sealBlock H (candidate H bc ts) hseal)).2 with
               pending_transactions := [] })) ∧
      ((add_block H bc (sealBlock H (candidate H bc ts) hseal)).1 = false →
        mine_block H bc ts hseal = (none, bc))) := by
  constructor
  · intro hp
    unfold mine_block
    rw [if_pos hp]
  · intro hp
    refine ⟨rfl, rfl, rfl, rfl, Nat.find_spec hseal, ?_, ?_⟩
    · intro hadd
      unfold mine_block
      rw [if_neg hp, if_pos hadd]
    · intro hadd
      unfold mine_block
      rw [if_neg hp, if_neg (by simp [hadd])]

/-- Witness for C5: mining `bc5` returns the sealed candidate and clears the
pending queue. -/
theorem mine_block_spec_witness :
    (mine_block H0 bc5 1 hseal5).1 = some (sealBlock H0 (candidate H0 bc5 1) hseal5) ∧
    (mine_block H0 bc5 1 hseal5).2.pending_transactions = [] := by
  have h := (mine_block_spec H0 bc5 1 hseal5).2 (by decide)
  have he := h.2.2.2.2.2.1 (by decide)
  rw [he]
  exact ⟨rfl, rfl⟩

/-- The claim of C9 fails on the code: `is_valid_block` never inspects
`block.index`, so a block with difficulty 0 (making the prefix check
vacuous) and an arbitrary index is accepted by `add_block`; the resulting
state is reachable and its block at position 1 carries index 7. -/
theorem rogue_index_reachable_cex :
    Reachable H0 bcRogue ∧ 1 < bcRogue.chain.length ∧
      (bcRogue.chain.getD 1 default).index ≠ 1 :=
  ⟨Reachable.add bc0 rogueBlock (Reachable.init 60 10 0 hgen0), by decide, by decide⟩

/-- C9 (amended): in every state reachable from construction by `mine_block`
calls alone, the block at position `i` has index `i` (genesis carries index
0 and mined blocks carry index `len(chain)`); `add_block` does not validate
the index, so the invariant does not survive arbitrary `add_block` calls. -/
theorem mining_indices (H : Str → Str) (bc : Blockchain)
    (h : ReachableByMining H bc) :
    ∀ i, i < bc.chain.length → (bc.chain.getD i default).index = i := by
  induction h with
  | init target_time adjustment_interval ts hg =>
    intro i hi
    have h0 : i = 0 := by
      simpa [Blockchain.init] using hi
    subst h0
    rfl
  | mine bc ts hseal hr ih =>
    intro i hi
    by_cases hp : bc.pending_transactions = []
    · have he : mine_block H bc ts hseal = (none, bc) := by
        unfold mine_block
        rw [if_pos hp]
      rw [he] at hi ⊢
      exact ih i hi
    · by_cases hadd : (add_block H bc (sealBlock H (candidate H bc ts) hseal)).1 = true
      · have he : mine_block H bc ts hseal =
            (some (sealBlock H (candidate H bc ts) hseal),
             { (add_block H bc (sealBlock H (candidate H bc ts) hseal)).2 with
                 pending_transactions := [] }) := by
          unfold mine_block
          rw [if_neg hp, if_pos hadd]
        have hchain := add_block_accept_chain H bc _ hadd
        rw [he] at hi ⊢
        simp only at hi ⊢
        rw [hchain] at hi ⊢
        simp only [List.length_append, List.length_cons, List.length_nil] at hi
        rcases Nat.lt_succ_iff_lt_or_eq.mp hi with hlt | heq
        · rw [List.getD_append _ _ _ _ hlt]
          exact ih i hlt
        · subst heq
          rw [List.getD_append_right _ _ _ _ (Nat.le_refl _)]
          simp only [Nat.sub_self]
          rfl
      · have he : mine_block H bc ts hseal = (none, bc) := by
          unfold mine_block
          rw [if_neg hp, if_neg (by simp [hadd])]
        rw [he] at hi ⊢
        exact ih i hi

/-- Witness for C9 (amended): the freshly constructed chain satisfies the
positional-index invariant at position 0. -/
theorem mining_indices_witness :
    0 < bc0.chain.length ∧ (bc0.chain.getD 0 default).index = 0 :=
  ⟨by decide, mining_indices H0 bc0 (ReachableByMining.init 60 10 0 hgen0) 0 (by decide)⟩

/-- Looking up the key just written by `upsert` yields the new value. -/
theorem lookup_upsert {α : Type} (l : List (Str × α)) (k : Str) (v : α) :
    (upsert l k v).lookup k = some v := by
  induction l with
  | nil => simp [upsert, List.lookup]
  | cons p t ih =>
    obtain ⟨k', v'⟩ := p
    by_cases h : k' = k
    · subst h
      simp [upsert, List.lookup]
    · have hb : (k == k') = false := beq_eq_false_iff_ne.mpr (Ne.symm h)
      simp [upsert, h, List.lookup, hb, ih]

/-- Helper: `upsert` leaves lookups of other keys alone. -/
theorem lookup_upsert_ne {α : Type} (l : List (Str × α)) (k k' : Str) (v : α)
    (h : k ≠ k') : (upsert l k' v).lookup k = l.lookup k := by
  induction l with
  | nil =>
    have hb : (k == k') = false := beq_eq_false_iff_ne.mpr h
    simp [upsert, List.lookup, hb]
  | cons p t ih =>
    obtain ⟨a, b⟩ := p
    by_cases ha : a = k'
    · subst ha
      have hb : (k == a) = false := beq_eq_false_iff_ne.mpr h
      simp [upsert, List.lookup, hb]
    · cases hb : (k == a) <;> simp [upsert, ha, List.lookup, hb, ih]

/-- The claim of C3 fails on the code: `retrieve_chunk` never consults the
expiry timestamp.  On the concrete state `stB` the record for `hashW`
expired at time 1, yet at time 5 the chunk is still returned because the
record is indexed, the bytes are on disk and the hash matches. -/
theorem retrieve_expired_cex :
    stB.chunk_index.lookup hashW = some recB ∧ recB.expires_at ≤ 5 ∧
      (stB.files.lookup hashW).isSome = true ∧
      retrieve_chunk HbW stB hashW = some [1, 2] :=
  ⟨by decide, by decide, by decide, by decide⟩

/-- C3 (amended): `retrieve_chunk` returns the bytes exactly when a record
exists in the index (expired or not), the backing bytes are present, and
their hash equals the content hash; it returns absence rather than raising
on any miss.  Expiry is enforced by `validate_chunk` (which fails once the
expiry has passed), not by retrieval. -/
theorem retrieve_chunk_ignores_expiry (Hb : List Nat → Str) (st : ChunkState)
    (chunk_hash : Str) (d : List Nat) :
    (retrieve_chunk Hb st chunk_hash = some d ↔
      (st.chunk_index.lookup chunk_hash).isSome = true ∧
      st.files.lookup chunk_hash = some d ∧ Hb d = chunk_hash) ∧
    (∀ (now : ℚ) (r : ChunkRecord), st.chunk_index.lookup chunk_hash = some r →
      r.expires_at ≤ now → validate_chunk st now chunk_hash = false) := by
  constructor
  · unfold retrieve_chunk
    cases hidx : st.chunk_index.lookup chunk_hash with
    | none => simp [hidx]
    | some r =>
      cases hf : st.files.lookup chunk_hash with
      | none => simp [hidx, hf]
      | some data =>
        by_cases hv : Hb data = chunk_hash
        · simp [hidx, hf, validate_chunk_data, hv]
          intro hd
          subst hd
          exact hv
        · simp [hidx, hf, validate_chunk_data, hv]
          intro hd
          subst hd
          exact hv
  · intro now r hr hle
    unfold validate_chunk
    rw [hr]
    cases hf : (st.files.lookup chunk_hash).isNone with
    | true => simp
    | false =>
      simp only [Bool.false_eq_true, if_false, decide_eq_false_iff_not, not_lt]
      exact hle

/-- Witness for C3 (amended): on the expired record of `stB`,
`validate_chunk` fails at time 5. -/
theorem retrieve_chunk_ignores_expiry_witness :
    validate_chunk stB 5 hashW = false :=
  (retrieve_chunk_ignores_expiry HbW stB hashW [1, 2]).2 5 recB (by decide) (by decide)

/-- C6 (code bug): the claimed store-then-retrieve round trip never
completes in the code.  On a matching content hash `store_chunk` writes the
backing file and the index record and then blocks forever: it awaits
`save_metadata` while still holding the manager's non-reentrant
`asyncio.Lock`, and `save_metadata` re-acquires that lock.  The call never
returns success, and the lock it holds also blocks the subsequent
`retrieve_chunk`. -/
theorem store_matching_deadlocks (Hb : List Nat → Str) (st : ChunkState)
    (now : ℚ) (chunk_hash : Str) (data : List Nat) (peers : List Str)
    (h : Hb data = chunk_hash) :
    store_chunk Hb st now chunk_hash data peers =
      StoreResult.deadlock
        { st with
          files := upsert st.files chunk_hash data,
          chunk_index := upsert st.chunk_index chunk_hash
            { size := data.length, peers := peers,
              created_at := now, expires_at := now + st.chunk_ttl } } := by
  simp [store_chunk, validate_chunk_data, h]

/-- Witness for C6: storing `[1, 2]` under its matching hash on the empty
store writes the chunk and then deadlocks instead of returning. -/
theorem store_matching_deadlocks_witness :
    store_chunk HbW stEmpty 0 hashW [1, 2] [] =
      StoreResult.deadlock
        { stEmpty with
          files := upsert stEmpty.files hashW [1, 2],
          chunk_index := upsert stEmpty.chunk_index hashW
            { size := 2, peers := [],
              created_at := 0, expires_at := 0 + stEmpty.chunk_ttl } } :=
  store_matching_deadlocks HbW stEmpty 0 hashW [1, 2] [] (by decide)

/-- C7: storing bytes whose content hash differs from the claimed hash
returns failure without raising and leaves the store state unchanged; in
particular a hash that had no index record and no backing bytes still has
none afterwards. -/
theorem store_mismatch_rejected (Hb : List Nat → Str) (st : ChunkState)
    (now : ℚ) (chunk_hash : Str) (data : List Nat) (peers : List Str)
    (h : Hb data ≠ chunk_hash) :
    store_chunk Hb st now chunk_hash data peers = StoreResult.returns false st ∧
    (st.chunk_index.lookup chunk_hash = none →
      (store_chunk Hb st now chunk_hash data
          peers).state.chunk_index.lookup chunk_hash = none) ∧
    (st.files.lookup chunk_hash = none →
      (store_chunk Hb st now chunk_hash data
          peers).state.files.lookup chunk_hash = none) := by
  have he : store_chunk Hb st now chunk_hash data peers =
      StoreResult.returns false st := by
    simp [store_chunk, validate_chunk_data, h]
  exact ⟨he, fun hi => by rw [he]; exact hi, fun hi => by rw [he]; exact hi⟩

/-- Witness for C7: storing bytes `[9]` under the wrong hash on the empty
store is rejected and the store stays empty. -/
theorem store_mismatch_rejected_witness :
    store_chunk HbW stEmpty 0 (("x").data) [9] [] =
      StoreResult.returns false stEmpty :=
  (store_mismatch_rejected HbW stEmpty 0 (("x").data) [9] [] (by decide)).1

/-- The claim of C8 fails on the code: `process_transactions` concatenates
the transaction strings, and concatenation does not separate list elements,
so the distinct permutation `["aa", "a"]` of `["a", "aa"]` derives the same
useful-work string `"aaa"`. -/
theorem perm_concat_collision_cex :
    List.Perm ([("a").data, ("aa").data]) ([("aa").data, ("a").data]) ∧
    ([("a").data, ("aa").data] : List Str) ≠ ([("aa").data, ("a").data]) ∧
    PoUW.process_transactions ([("a").data, ("aa").data]) =
      PoUW.process_transactions ([("aa").data, ("a").data]) :=
  ⟨List.Perm.swap _ _ _, by decide, by decide⟩

/-- C8 (amended): the useful-work derivation is deterministic and
order-sensitive — some non-identity permutations change the result (swapping
`"a"` and `"b"` does) — but a non-identity permutation need not change it
when the concatenations coincide; every permutation preserves the total
length of the derivation. -/
theorem process_transactions_order (l₁ l₂ : List Str) (h : l₁.Perm l₂) :
    PoUW.process_transactions ([("a").data, ("b").data]) ≠
      PoUW.process_transactions ([("b").data, ("a").data]) ∧
    (PoUW.process_transactions l₁).length = (PoUW.process_transactions l₂).length := by
  refine ⟨by decide, ?_⟩
  unfold PoUW.process_transactions
  rw [List.length_flatten, List.length_flatten]
  exact List.Perm.sum_eq (h.map List.length)

/-- Witness for C8 (amended): instantiated on the swap of `"a"` and
`"b"`. -/
theorem process_transactions_order_witness :
    PoUW.process_transactions ([("a").data, ("b").data]) ≠
      PoUW.process_transactions ([("b").data, ("a").data]) ∧
    (PoUW.process_transactions ([("a").data, ("b").data])).length =
      (PoUW.process_transactions ([("b").data, ("a").data])).length :=
  process_transactions_order ([("a").data, ("b").data]) ([("b").data, ("a").data])
    (List.Perm.swap _ _ _)

/-- The claim of C4 fails on the code: `decode_message` re-raises on a bad
frame and `handle_connection` catches only `IncompleteReadError` and
`ConnectionResetError`, so the read loop ends at the bad frame instead of
continuing: the frames after it are never processed. -/
theorem bad_frame_stops_loop_cex :
    decode_message parse4 verify4 badFrame = none ∧
    handle_connection parse4 verify4 ([badFrame, goodFrame]) = [] ∧
    handle_connection parse4 verify4 ([goodFrame]) =
      [[(("pub_key").data, ("k").data)]] :=
  ⟨by decide, by decide, by decide⟩

/-- C4 (amended): a frame whose signature fails verification or whose
payload is malformed is rejected and never processed, but the exception it
raises propagates out of the read loop: no later frame on that connection is
processed, and the `finally` block removes the peer and closes the
connection. -/
theorem decode_failure_ends_read_loop (parse : List Nat → Option Msg)
    (verify : Str → List Nat → List Nat → Bool) (f : List Nat)
    (rest : List (List Nat)) (h : decode_message parse verify f = none) :
    handle_connection parse verify (f :: rest) = [] := by
  unfold handle_connection
  rw [h]

/-- Witness for C4 (amended): the bad frame ends the loop with the good
frame behind it unprocessed. -/
theorem decode_failure_ends_read_loop_witness :
    handle_connection parse4 verify4 (badFrame :: [goodFrame]) = [] :=
  decode_failure_ends_read_loop parse4 verify4 badFrame ([goodFrame]) (by decide)

/-- C10: `decode_message` rejects any message without a `pub_key` field
(the lookup raises `KeyError`), and `encode_message` adds only `timestamp`;
since among the produced messages only the handshake carries `pub_key`,
every non-handshake message this node produces (heartbeat, chunk request,
chunk response, chunk announcement, peer exchange) is rejected when decoded
by a receiver running the same code, and is never processed. -/
theorem non_handshake_rejected (parse : List Nat → Option Msg)
    (serialize : Msg → List Nat) (sign : List Nat → List Nat)
    (verify : Str → List Nat → List Nat → Bool) (ts : Str) (m : Msg)
    (hrt : parse (serialize (upsert m (("timestamp").data) ts)) =
      some (upsert m (("timestamp").data) ts))
    (hsig : (sign (serialize (upsert m (("timestamp").data) ts))).length = 64)
    (hm : m.lookup (("pub_key").data) = none) :
    decode_message parse verify (encode_message serialize sign ts m) = none ∧
    heartbeat_msg.lookup (("pub_key").data) = none ∧
    (∀ a b, (chunk_request_msg a b).lookup (("pub_key").data) = none) ∧
    (∀ a b, (chunk_response_msg a b).lookup (("pub_key").data) = none) ∧
    (∀ a b, (chunk_announce_msg a b).lookup (("pub_key").data) = none) ∧
    (∀ a, (peer_exchange_msg a).lookup (("pub_key").data) = none) := by
  refine ⟨?_, rfl, fun a b => rfl, fun a b => rfl, fun a b => rfl, fun a => rfl⟩
  have htake : (encode_message serialize sign ts m).take
      ((encode_message serialize sign ts m).length - 64) =
      serialize (upsert m (("timestamp").data) ts) := by
    unfold encode_message
    rw [List.length_append, hsig, Nat.add_sub_cancel]
    exact List.take_left _ _
  have hpk : (upsert m (("timestamp").data) ts).lookup (("pub_key").data) = none := by
    rw [lookup_upsert_ne _ _ _ _ (by decide)]
    exact hm
  unfold decode_message
  rw [htake, hrt]
  dsimp only
  rw [hpk]

/-- Witness for C10: the encoded heartbeat is rejected under a codec that
inverts the serializer on it. -/
theorem non_handshake_rejected_witness :
    decode_message parseW verify4 (encode_message serW signW tsW heartbeat_msg) =
      none :=
  (non_handshake_rejected parseW serW signW verify4 tsW heartbeat_msg (by decide)
    (by decide) (by decide)).1

end TorrentChain
